import Mathlib

/-!
# Verification of the matrix-indexer event ingestion pipeline

Shallow embedding of the core of the `matrix-indexer` repository
(`src/indexer.py`, `src/backfill.py`): the in-memory recency cache
(`EventCache`), the event serializer (`_serialize_event`), the idempotent
document store (`replace_one` with `upsert=True` keyed by `event_id`),
the per-cycle behaviour of `MatrixIndexer.sync_loop`, the state-file
persistence (`_save_state`), and the backfill walker
(`MatrixBackfill.backfill_room` / `backfill_all_rooms`).

Python `None` and missing attributes are modelled with `Option`; the
external Matrix client and MongoDB are modelled as explicit inputs
(response values, per-call success flags); side effects relevant to the
claims (state-file saves, store writes, cache adds, back-off sleeps) are
recorded as explicit action traces.
-/

namespace MatrixIndexer

/-- The `content` attribute of a raw nio event: a dict-shaped payload, a
non-dict value, or the attribute being absent (`hasattr` false). -/
inductive RawContent where
  | dict (entries : List (String × String))
  | nonDict (raw : String)
  | absent
deriving DecidableEq

/-- A raw protocol event as seen by `_process_events` / `backfill_room`:
duck-typed attribute access is modelled with `Option` fields (`none` =
attribute missing or `None`).  `isTextMessage` models
`isinstance(event, RoomMessageText)`, with `body`/`msgtype` its fields. -/
structure RawEvent where
  event_id : Option String
  room_id : Option String
  sender : Option String
  type' : Option String
  origin_server_ts : Option Int
  timestamp : Option Int
  source : List (String × String)
  isTextMessage : Bool
  body : String
  msgtype : String
  content : RawContent
deriving DecidableEq

/-- The `content` field of a stored document. -/
inductive DocContent where
  | textBody (body msgtype : String)
  | dict (entries : List (String × String))
  | nonDict (raw : String)
deriving DecidableEq

/-- A stored MongoDB document, as built by `_serialize_event` (sync path)
or inline in `backfill_room` (backfill path).  `backfilled = none` models
the key being absent from the sync-path document. -/
structure Doc where
  event_id : Option String
  room_id : Option String
  sender : Option String
  type' : Option String
  origin_server_ts : Option Int
  timestamp : Int
  source : List (String × String)
  content : DocContent
  backfilled : Option Bool
deriving DecidableEq

/-- `MatrixIndexer._serialize_event`: total serialization of a raw event
into a document; every missing attribute falls back to its `getattr`
default (`None` for id/room/sender/type/origin_server_ts, `0` for
timestamp, `\x7b\x7d` for source/content). -/
def _serialize_event (e : RawEvent) : Doc :=
  { event_id := e.event_id
    room_id := e.room_id
    sender := e.sender
    type' := e.type'
    origin_server_ts := e.origin_server_ts
    timestamp := e.timestamp.getD 0
    source := e.source
    content :=
      if e.isTextMessage then DocContent.textBody e.body e.msgtype
      else match e.content with
        | RawContent.dict d => DocContent.dict d
        | RawContent.nonDict _ => DocContent.dict []
        | RawContent.absent => DocContent.dict []
    backfilled := none }

/-- The guard `if not hasattr(event, 'event_id') or not event.event_id`
used by both ingestion paths: an event has a usable identifier exactly
when the attribute is present and truthy (non-empty string). -/
def hasValidId (e : RawEvent) : Bool :=
  match e.event_id with
  | none => false
  | some s => !s.isEmpty

/-- The validated identifier of an event (the string the cache and the
store key on), when the guard passes. -/
def validId (e : RawEvent) : Option String :=
  match e.event_id with
  | none => none
  | some s => if s.isEmpty then none else some s

/-- The error vocabulary of the spec for an event missing its required
identifier; realised in the code as the `continue`-skip guard at the top
of both ingestion loops. -/
inductive MalformedEventError where
  | malformed
deriving DecidableEq

/-- The serializer boundary as the callers use it: the identifier guard
followed by `_serialize_event`.  An event lacking an identifier is
rejected; otherwise the keyed document is produced. -/
def serializeChecked (e : RawEvent) : Except MalformedEventError (String × Doc) :=
  match validId e with
  | none => Except.error MalformedEventError.malformed
  | some k => Except.ok (k, _serialize_event e)

/-- The MongoDB events collection, keyed by `event_id` (which carries a
unique index): an association list from identifier to document. -/
abbrev Store := List (String × Doc)

/-- `events_collection.replace_one({"event_id": k}, doc, upsert=True)`:
replace the (unique) existing document with that `event_id`, or insert
the new document if the id is absent. -/
def upsert : Store → String × Doc → Store
  | [], d => [d]
  | p :: rest, d => if p.1 = d.1 then d :: rest else p :: upsert rest d

/-- The documents a batch of raw events contributes, in order: invalid
events are skipped, valid ones serialized and keyed by their id. -/
def serializeBatch (events : List RawEvent) : List (String × Doc) :=
  events.filterMap (fun e => (serializeChecked e).toOption)

/-- The store-side effect of `_process_events`: upsert each serialized
document of the batch into the collection, in batch order. -/
def store_events (st : Store) (events : List RawEvent) : Store :=
  (serializeBatch events).foldl upsert st

/-- `EventCache` (`src/indexer.py` lines 27-50): an insertion-ordered
bounded map, modelled as Python's `OrderedDict` — an association list in
insertion order (head = oldest). -/
structure EventCache where
  max_size : Nat
  cache : List (String × Doc)
deriving DecidableEq

/-- `EventCache(max_size)` constructor: empty ordered dict. -/
def EventCache.init (max_size : Nat) : EventCache :=
  { max_size := max_size, cache := [] }

/-- `self.cache[event_id] = event` on an `OrderedDict`: update the value
in place when the key exists (the entry keeps its position), otherwise
append at the newest end. -/
def insertOD (l : List (String × Doc)) (k : String) (v : Doc) : List (String × Doc) :=
  if l.any (fun p => p.1 = k) then
    l.map (fun p => if p.1 = k then (k, v) else p)
  else
    l ++ [(k, v)]

/-- `if len(self.cache) > self.max_size: self.cache.popitem(last=False)`:
drop the oldest entry when over capacity. -/
def popIfOver (c : EventCache) : EventCache :=
  if c.cache.length > c.max_size then { c with cache := c.cache.drop 1 } else c

/-- `EventCache.add`: the `OrderedDict` assignment followed by the
conditional oldest-entry pop. -/
def EventCache.add (c : EventCache) (event_id : String) (event : Doc) : EventCache :=
  popIfOver { c with cache := insertOD c.cache event_id event }

/-- `EventCache.get`: `self.cache.get(event_id)` — a pure lookup. -/
def EventCache.get (c : EventCache) (event_id : String) : Option Doc :=
  (c.cache.find? (fun p => p.1 = event_id)).map (fun p => p.2)

/-- `EventCache.contains`: `event_id in self.cache` — a pure membership
check. -/
def EventCache.contains (c : EventCache) (event_id : String) : Bool :=
  c.cache.any (fun p => p.1 = event_id)

/-- `EventCache.size`: `len(self.cache)`. -/
def EventCache.size (c : EventCache) : Nat :=
  c.cache.length

/-- Fold a sequence of insertions through `EventCache.add`. -/
def EventCache.addAll (c : EventCache) (l : List (String × Doc)) : EventCache :=
  l.foldl (fun c p => c.add p.1 p.2) c

/-- Observable side effects of one sync-loop iteration, in program
order: a `_save_state` call persisting the cursor, a cache insertion, a
durable `replace_one` store write, a back-off `asyncio.sleep`. -/
inductive Action where
  | saveState (tok : Option String)
  | cacheAdd (id : String)
  | storeWrite (id : String)
  | sleepBackoff (secs : Nat)
deriving DecidableEq

/-- `MatrixIndexer._process_events` on one room batch: skip events
without a usable id, serialize the rest, add each to the cache, then
upsert the documents into the collection inside a `try`.  `storeOk`
models whether MongoDB raises during the write loop; on failure the
exception is caught inside `_process_events` (events not durable, error
logged) and the cache additions remain. -/
def process_events (st : Store) (c : EventCache) (events : List RawEvent)
    (storeOk : Bool) : Store × EventCache × List Action :=
  let docs := serializeBatch events
  let c' := EventCache.addAll c docs
  let cacheActs := docs.map (fun p => Action.cacheAdd p.1)
  if docs.isEmpty then (st, c', cacheActs)
  else if storeOk then
    (docs.foldl upsert st, c', cacheActs ++ docs.map (fun p => Action.storeWrite p.1))
  else (st, c', cacheActs)

/-- The outcome of one `client.sync` call in the loop: a `SyncResponse`
carrying the `next_batch` token and the joined rooms' timeline events, a
non-`SyncResponse` error value, or a raised exception. -/
inductive SyncResult where
  | success (next_batch : String) (rooms : List (String × List RawEvent))
  | failure
  | exn
deriving DecidableEq

/-- Mutable state of `MatrixIndexer` relevant to one sync cycle. -/
structure SyncState where
  sync_token : Option String
  store : Store
  cache : EventCache
deriving DecidableEq

/-- One iteration of the `while self.running` body of
`MatrixIndexer.sync_loop` (`src/indexer.py` lines 205-226), with its
side effects recorded as a trace.  On a `SyncResponse` the code first
sets `self.sync_token = resp.next_batch` and calls `_save_state()`, and
only then processes each non-empty room timeline; on an error response
or an exception it leaves the token alone and sleeps 5 seconds. -/
def sync_cycle (st : SyncState) (resp : SyncResult) (storeOk : String → Bool) :
    SyncState × List Action :=
  match resp with
  | SyncResult.success next rooms =>
    let tok' : Option String := some next
    let folded :=
      rooms.foldl
        (fun (acc : Store × EventCache × List Action) room =>
          if room.2.isEmpty then acc
          else
            let r := process_events acc.1 acc.2.1 room.2 (storeOk room.1)
            (r.1, r.2.1, acc.2.2 ++ r.2.2))
        (st.store, st.cache, [])
    ({ sync_token := tok', store := folded.1, cache := folded.2.1 },
      Action.saveState tok' :: folded.2.2)
  | SyncResult.failure => (st, [Action.sleepBackoff 5])
  | SyncResult.exn => (st, [Action.sleepBackoff 5])

/-- File-system operations `_save_state` can perform. -/
inductive FsOp where
  | mkdirParents (dir : String)
  | writeFile (path : String) (contents : String)
  | renameFile (src dst : String)
deriving DecidableEq

/-- `json.dumps({"sync_token": self.sync_token})`. -/
def encodeState (tok : Option String) : String :=
  "\x7b\"sync_token\": " ++
    (match tok with
     | none => "null"
     | some s => "\"" ++ s ++ "\"") ++ "\x7d"

/-- `MatrixIndexer._save_state` (`src/indexer.py` lines 138-145) as its
sequence of file-system operations: `mkdir(parents=True)` on the parent
directory, then a single direct `write_text` on the state file itself.
No temporary file and no rename are involved. -/
def save_state_ops (stateDir stateFile : String) (tok : Option String) : List FsOp :=
  [FsOp.mkdirParents stateDir, FsOp.writeFile stateFile (encodeState tok)]

/-- Possible states of a file after a process crash anywhere during an
in-place `write_text old → new` (open with truncation, then write): the
untouched old contents (crash before the open), or any proper stage of
the truncate-then-write (empty file up to the full new contents). -/
def crashOutcomes (old new : String) : List String :=
  old :: (List.range (new.length + 1)).map (fun i => new.take i)

/-- A `room_messages` pagination response: the `chunk` of raw events
(`[]` also covers a missing `chunk` attribute, both break the walk) and
the `start` attribute — outer `none` models the attribute being absent,
`some none` models `resp.start` being `None`. -/
structure PaginationResp where
  chunk : List RawEvent
  start : Option (Option String)
deriving DecidableEq

/-- Python truthiness of a pagination token: `None` and the empty string
are falsy (`if not start_token: break`). -/
def tokenTruthy (tok : Option String) : Bool :=
  match tok with
  | none => false
  | some s => !s.isEmpty

/-- The document built inline in `MatrixBackfill.backfill_room`
(`src/backfill.py` lines 108-118) for an event that passed the id guard:
`room_id` comes from the argument, `content` is `getattr(event,
"content", \x7b\x7d)` verbatim (no text-message special case), and
`backfilled` is `True`. -/
def backfill_doc (room_id : String) (e : RawEvent) : Option (String × Doc) :=
  match validId e with
  | none => none
  | some k =>
    some (k,
      { event_id := e.event_id
        room_id := some room_id
        sender := e.sender
        type' := e.type'
        origin_server_ts := e.origin_server_ts
        timestamp := e.timestamp.getD 0
        source := e.source
        content :=
          match e.content with
          | RawContent.dict d => DocContent.dict d
          | RawContent.nonDict r => DocContent.nonDict r
          | RawContent.absent => DocContent.dict []
        backfilled := some true })

/-- Number of iterations of `for i in range(0, limit, bs)` for `bs > 0`:
the ceiling of `limit / bs`. -/
def numBatches (limit bs : Nat) : Nat :=
  (limit + bs - 1) / bs

/-- The batch loop of `backfill_room`.  `fetch i` is the outcome of the
`i`-th `room_messages` call (`none` = the call raises); `storeOk i`
models whether MongoDB raises while storing batch `i` (on failure the
exception is caught in place, nothing of the batch is stored and the
count is not increased).  A raised fetch propagates to the outer
handler, which is modelled by `Except.error` carrying the store at that
point. -/
def backfill_loop (fetch : Nat → Option PaginationResp) (storeOk : Nat → Bool)
    (room_id : String) :
    Nat → Option String → Nat → Nat → Store → Except Store (Nat × Store)
  | 0, _, count, _, store => Except.ok (count, store)
  | fuel + 1, tok, count, idx, store =>
    if tokenTruthy tok then
      match fetch idx with
      | none => Except.error store
      | some resp =>
        if resp.chunk.isEmpty then Except.ok (count, store)
        else
          let docs := resp.chunk.filterMap (backfill_doc room_id)
          let stepped : Nat × Store :=
            if docs.isEmpty then (count, store)
            else if storeOk idx then (count + docs.length, docs.foldl upsert store)
            else (count, store)
          match resp.start with
          | none => Except.ok stepped
          | some t' =>
            backfill_loop fetch storeOk room_id fuel t' stepped.1 (idx + 1) stepped.2
    else Except.ok (count, store)

/-- `MatrixBackfill.backfill_room` (`src/backfill.py` lines 69-147).
`roomLookup` models `self.client.rooms.get(room_id)`: `none` = room not
known (return 0), `some pb` = the room with `prev_batch = pb`.  A zero
batch size makes `range` raise, caught by the outer handler (count 0);
any exception mid-walk is caught by the outer handler and yields count 0
while keeping whatever was already stored. -/
def backfill_room (roomLookup : Option (Option String))
    (fetch : Nat → Option PaginationResp) (storeOk : Nat → Bool)
    (room_id : String) (limit bs : Nat) (store : Store) : Nat × Store :=
  match roomLookup with
  | none => (0, store)
  | some prev_batch =>
    if bs = 0 then (0, store)
    else
      match backfill_loop fetch storeOk room_id (numBatches limit bs) prev_batch 0 0 store with
      | Except.ok r => r
      | Except.error s => (0, s)

/-- The body of the per-room loop of `backfill_all_rooms`:
`count = await self.backfill_room(room_id)` then
`results[room_id] = count`, with the store threaded through. -/
def backfill_all_step (fetchFor : String → Nat → Option PaginationResp)
    (storeOkFor : String → Nat → Bool) (limit bs : Nat)
    (acc : List (String × Nat) × Store) (room : String × Option String) :
    List (String × Nat) × Store :=
  let r := backfill_room (some room.2) (fetchFor room.1) (storeOkFor room.1)
    room.1 limit bs acc.2
  (acc.1 ++ [(room.1, r.1)], r.2)

/-- `MatrixBackfill.backfill_all_rooms` (`src/backfill.py` lines
149-164): iterate `self.client.rooms` (given as `(room_id, prev_batch)`
pairs), run `backfill_room` on each against the shared store, and build
the per-room result map in iteration order. -/
def backfill_all_rooms (rooms : List (String × Option String))
    (fetchFor : String → Nat → Option PaginationResp)
    (storeOkFor : String → Nat → Bool)
    (limit bs : Nat) (store : Store) : List (String × Nat) × Store :=
  rooms.foldl (backfill_all_step fetchFor storeOkFor limit bs) ([], store)

/-- First association with the given key, mirroring how the unique
`event_id` index resolves a `replace_one` filter. -/
def lookupS : Store → String → Option (String × Doc)
  | [], _ => none
  | p :: rest, k => if p.1 = k then some p else lookupS rest k

/-- The event count `backfill_room` reports for a walk outcome: the
accumulated count on a normal return, `0` when the outer exception
handler fires. -/
def countOf : Except Store (Nat × Store) → Nat
  | Except.ok r => r.1
  | Except.error _ => 0

/-- A sample stored document (concrete witness input). -/
def docA : Doc :=
  { event_id := some "a", room_id := some "!r:hs", sender := some "@u:hs",
    type' := some "m.room.message", origin_server_ts := some 1, timestamp := 0,
    source := [], content := DocContent.dict [], backfilled := none }

/-- A second sample document. -/
def docB : Doc := { docA with event_id := some "b" }

/-- A third sample document. -/
def docC : Doc := { docA with event_id := some "c" }

/-- A sample raw event with identifier `e1` and all optional fields
absent (concrete witness input). -/
def evA : RawEvent :=
  { event_id := some "e1", room_id := some "!r:hs", sender := none, type' := none,
    origin_server_ts := none, timestamp := none, source := [], isTextMessage := false,
    body := "", msgtype := "", content := RawContent.absent }

/-- A raw event whose `event_id` attribute is missing. -/
def evNoId : RawEvent := { evA with event_id := none }

/-- A second sample raw event, with identifier `e2`. -/
def evB : RawEvent := { evA with event_id := some "e2" }

theorem upsert_cons_pos (p : String × Doc) (rest : Store) (d : String × Doc)
    (h : p.1 = d.1) : upsert (p :: rest) d = d :: rest := by
  simp [upsert, h]

theorem upsert_cons_neg (p : String × Doc) (rest : Store) (d : String × Doc)
    (h : ¬ p.1 = d.1) : upsert (p :: rest) d = p :: upsert rest d := by
  simp [upsert, h]

theorem lookupS_cons_pos (p : String × Doc) (rest : Store) (k : String)
    (h : p.1 = k) : lookupS (p :: rest) k = some p := by
  simp [lookupS, h]

theorem lookupS_cons_neg (p : String × Doc) (rest : Store) (k : String)
    (h : ¬ p.1 = k) : lookupS (p :: rest) k = lookupS rest k := by
  simp [lookupS, h]

theorem mem_keys_upsert (s : Store) (d : String × Doc) (k : String)
    (h : k ∈ s.map Prod.fst) : k ∈ (upsert s d).map Prod.fst := by
  induction s with
  | nil => simp at h
  | cons p rest ih =>
    simp only [List.map_cons, List.mem_cons] at h
    by_cases hp : p.1 = d.1
    · rw [upsert_cons_pos p rest d hp]
      simp only [List.map_cons, List.mem_cons]
      rcases h with h | h
      · exact Or.inl (h.trans hp)
      · exact Or.inr h
    · rw [upsert_cons_neg p rest d hp]
      simp only [List.map_cons, List.mem_cons]
      rcases h with h | h
      · exact Or.inl h
      · exact Or.inr (ih h)

theorem self_mem_keys_upsert (s : Store) (d : String × Doc) :
    d.1 ∈ (upsert s d).map Prod.fst := by
  induction s with
  | nil => simp [upsert]
  | cons p rest ih =>
    by_cases hp : p.1 = d.1
    · rw [upsert_cons_pos p rest d hp]
      simp
    · rw [upsert_cons_neg p rest d hp]
      simp only [List.map_cons, List.mem_cons]
      exact Or.inr ih

theorem lookupS_upsert_self (s : Store) (d : String × Doc) :
    lookupS (upsert s d) d.1 = some d := by
  induction s with
  | nil => simp [upsert, lookupS]
  | cons p rest ih =>
    by_cases hp : p.1 = d.1
    · rw [upsert_cons_pos p rest d hp, lookupS_cons_pos d rest d.1 rfl]
    · rw [upsert_cons_neg p rest d hp, lookupS_cons_neg p (upsert rest d) d.1 hp, ih]

theorem lookupS_upsert_ne (s : Store) (d : String × Doc) (k : String)
    (h : k ≠ d.1) : lookupS (upsert s d) k = lookupS s k := by
  have hdk : ¬ d.1 = k := fun hh => h hh.symm
  induction s with
  | nil =>
    show lookupS [d] k = lookupS [] k
    rw [lookupS_cons_neg d [] k hdk]
  | cons p rest ih =>
    by_cases hp : p.1 = d.1
    · have hpk : ¬ p.1 = k := by rw [hp]; exact hdk
      rw [upsert_cons_pos p rest d hp, lookupS_cons_neg d rest k hdk,
        lookupS_cons_neg p rest k hpk]
    · by_cases hk : p.1 = k
      · rw [upsert_cons_neg p rest d hp, lookupS_cons_pos p (upsert rest d) k hk,
          lookupS_cons_pos p rest k hk]
      · rw [upsert_cons_neg p rest d hp, lookupS_cons_neg p (upsert rest d) k hk,
          lookupS_cons_neg p rest k hk, ih]

theorem upsert_eq_of_lookupS (s : Store) (d : String × Doc)
    (h : lookupS s d.1 = some d) : upsert s d = s := by
  induction s with
  | nil => simp [lookupS] at h
  | cons p rest ih =>
    by_cases hp : p.1 = d.1
    · rw [lookupS_cons_pos p rest d.1 hp] at h
      have hpd : p = d := by injection h
      rw [upsert_cons_pos p rest d hp, hpd]
    · rw [lookupS_cons_neg p rest d.1 hp] at h
      rw [upsert_cons_neg p rest d hp, ih h]

theorem upsert_collapse (s : Store) (d e : String × Doc) (h : d.1 = e.1) :
    upsert (upsert s d) e = upsert s e := by
  induction s with
  | nil =>
    show upsert [d] e = upsert [] e
    rw [upsert_cons_pos d [] e h]
    rfl
  | cons p rest ih =>
    by_cases hp : p.1 = d.1
    · have hpe : p.1 = e.1 := hp.trans h
      rw [upsert_cons_pos p rest d hp, upsert_cons_pos d rest e h,
        upsert_cons_pos p rest e hpe]
    · have hpe : ¬ p.1 = e.1 := by rw [← h]; exact hp
      rw [upsert_cons_neg p rest d hp, upsert_cons_neg p (upsert rest d) e hpe,
        upsert_cons_neg p rest e hpe, ih]

theorem upsert_comm (s : Store) (d e : String × Doc)
    (hmem : d.1 ∈ s.map Prod.fst) (hne : e.1 ≠ d.1) :
    upsert (upsert s d) e = upsert (upsert s e) d := by
  induction s with
  | nil => simp at hmem
  | cons p rest ih =>
    by_cases hpd : p.1 = d.1
    · have hde : ¬ d.1 = e.1 := fun hh => hne hh.symm
      have hpe : ¬ p.1 = e.1 := by rw [hpd]; exact hde
      rw [upsert_cons_pos p rest d hpd, upsert_cons_neg d rest e hde,
        upsert_cons_neg p rest e hpe, upsert_cons_pos p (upsert rest e) d hpd]
    · by_cases hpe : p.1 = e.1
      · have hed : ¬ e.1 = d.1 := hne
        rw [upsert_cons_neg p rest d hpd, upsert_cons_pos p (upsert rest d) e hpe,
          upsert_cons_pos p rest e hpe, upsert_cons_neg e rest d hed]
      · have hmem' : d.1 ∈ rest.map Prod.fst := by
          simp only [List.map_cons, List.mem_cons] at hmem
          rcases hmem with h | h
          · exact absurd h.symm hpd
          · exact h
        rw [upsert_cons_neg p rest d hpd, upsert_cons_neg p (upsert rest d) e hpe,
          upsert_cons_neg p rest e hpe, upsert_cons_neg p (upsert rest e) d hpd,
          ih hmem']

theorem foldl_upsert_mem (ds : List (String × Doc)) :
    ∀ (s : Store) (k : String), k ∈ s.map Prod.fst →
      k ∈ (List.foldl upsert s ds).map Prod.fst := by
  induction ds with
  | nil => intro s k h; simpa using h
  | cons d ds ih =>
    intro s k h
    simp only [List.foldl_cons]
    exact ih (upsert s d) k (mem_keys_upsert s d k h)

theorem lookupS_foldl_not_mem (ds : List (String × Doc)) :
    ∀ (s : Store) (k : String), k ∉ ds.map Prod.fst →
      lookupS (List.foldl upsert s ds) k = lookupS s k := by
  induction ds with
  | nil => intro s k _; rfl
  | cons d ds ih =>
    intro s k h
    simp only [List.map_cons, List.mem_cons, not_or] at h
    simp only [List.foldl_cons]
    rw [ih (upsert s d) k h.2, lookupS_upsert_ne s d k h.1]

theorem upsert_foldl_absorb (ds : List (String × Doc)) :
    ∀ (s : Store) (d : String × Doc), d.1 ∈ s.map Prod.fst → d.1 ∈ ds.map Prod.fst →
      List.foldl upsert (upsert s d) ds = List.foldl upsert s ds := by
  induction ds with
  | nil => intro s d _ h; simp at h
  | cons e ds ih =>
    intro s d hs hds
    by_cases he : d.1 = e.1
    · simp only [List.foldl_cons]
      rw [upsert_collapse s d e he]
    · have hds' : d.1 ∈ ds.map Prod.fst := by
        simp only [List.map_cons, List.mem_cons] at hds
        rcases hds with h | h
        · exact absurd h he
        · exact h
      simp only [List.foldl_cons]
      rw [upsert_comm s d e hs (fun hh => he hh.symm)]
      exact ih (upsert s e) d (mem_keys_upsert s e d.1 hs) hds'

theorem foldl_upsert_idem (ds : List (String × Doc)) :
    ∀ s : Store, List.foldl upsert (List.foldl upsert s ds) ds = List.foldl upsert s ds := by
  induction ds with
  | nil => intro s; rfl
  | cons d ds ih =>
    intro s
    simp only [List.foldl_cons]
    by_cases hmem : d.1 ∈ ds.map Prod.fst
    · rw [upsert_foldl_absorb ds (List.foldl upsert (upsert s d) ds) d
        (foldl_upsert_mem ds (upsert s d) d.1 (self_mem_keys_upsert s d)) hmem]
      exact ih (upsert s d)
    · have hl : lookupS (List.foldl upsert (upsert s d) ds) d.1 = some d := by
        rw [lookupS_foldl_not_mem ds (upsert s d) d.1 hmem]
        exact lookupS_upsert_self s d
      rw [upsert_eq_of_lookupS _ d hl]
      exact ih (upsert s d)

theorem upsert_append_of_not_mem (s : Store) (d : String × Doc)
    (h : d.1 ∉ s.map Prod.fst) : upsert s d = s ++ [d] := by
  induction s with
  | nil => simp [upsert]
  | cons p rest ih =>
    simp only [List.map_cons, List.mem_cons, not_or] at h
    have hp : ¬ p.1 = d.1 := fun hh => h.1 hh.symm
    rw [upsert_cons_neg p rest d hp, ih h.2]
    rfl

theorem keys_upsert_of_mem (s : Store) (d : String × Doc)
    (h : d.1 ∈ s.map Prod.fst) : (upsert s d).map Prod.fst = s.map Prod.fst := by
  induction s with
  | nil => simp at h
  | cons p rest ih =>
    by_cases hp : p.1 = d.1
    · rw [upsert_cons_pos p rest d hp]
      simp [hp]
    · have h' : d.1 ∈ rest.map Prod.fst := by
        simp only [List.map_cons, List.mem_cons] at h
        rcases h with h | h
        · exact absurd h.symm hp
        · exact h
      rw [upsert_cons_neg p rest d hp]
      simp only [List.map_cons]
      rw [ih h']

theorem process_events_store_eq (st : Store) (c : EventCache) (events : List RawEvent) :
    (process_events st c events true).1 = store_events st events := by
  by_cases h : (serializeBatch events).isEmpty
  · have h' : serializeBatch events = [] := by simpa [List.isEmpty_iff] using h
    simp [process_events, store_events, h, h']
  · simp [process_events, store_events, h]

/-- C2: processing a batch of events twice through the `replace_one`
upsert path gives the same collection as processing it once; `upsert`
appends when the `event_id` is absent and replaces in place (creating no
duplicate key) when it is present. -/
theorem C2_upsert_idempotent :
    ∀ (st : Store) (c c' : EventCache) (events : List RawEvent),
      store_events (store_events st events) events = store_events st events ∧
      (process_events (process_events st c events true).1 c' events true).1
        = (process_events st c events true).1 ∧
      (∀ (s : Store) (d : String × Doc), d.1 ∉ s.map Prod.fst → upsert s d = s ++ [d]) ∧
      (∀ (s : Store) (d : String × Doc), d.1 ∈ s.map Prod.fst →
        (upsert s d).map Prod.fst = s.map Prod.fst ∧ lookupS (upsert s d) d.1 = some d) := by
  intro st c c' events
  refine ⟨foldl_upsert_idem (serializeBatch events) st, ?_, ?_, ?_⟩
  · rw [process_events_store_eq, process_events_store_eq]
    exact foldl_upsert_idem (serializeBatch events) st
  · exact fun s d h => upsert_append_of_not_mem s d h
  · exact fun s d h => ⟨keys_upsert_of_mem s d h, lookupS_upsert_self s d⟩

/-- Witness for C2 at a concrete store and a batch that re-delivers the
same event id. -/
theorem C2_upsert_idempotent_witness :
    store_events (store_events [("a", docA)] [evA, evA, evB]) [evA, evA, evB]
        = store_events [("a", docA)] [evA, evA, evB] ∧
      (process_events (process_events [("a", docA)] (EventCache.init 2) [evA, evA, evB] true).1
          (EventCache.init 2) [evA, evA, evB] true).1
        = (process_events [("a", docA)] (EventCache.init 2) [evA, evA, evB] true).1 ∧
      (∀ (s : Store) (d : String × Doc), d.1 ∉ s.map Prod.fst → upsert s d = s ++ [d]) ∧
      (∀ (s : Store) (d : String × Doc), d.1 ∈ s.map Prod.fst →
        (upsert s d).map Prod.fst = s.map Prod.fst ∧ lookupS (upsert s d) d.1 = some d) :=
  C2_upsert_idempotent [("a", docA)] (EventCache.init 2) (EventCache.init 2) [evA, evA, evB]

theorem insertOD_length_le (l : List (String × Doc)) (k : String) (v : Doc) :
    (insertOD l k v).length ≤ l.length + 1 := by
  unfold insertOD
  split_ifs <;> simp

theorem add_max_size (c : EventCache) (k : String) (v : Doc) :
    (c.add k v).max_size = c.max_size := by
  unfold EventCache.add popIfOver
  split_ifs <;> rfl

theorem add_size_le (c : EventCache) (k : String) (v : Doc)
    (h : c.size ≤ c.max_size) : (c.add k v).size ≤ c.max_size := by
  have hl := insertOD_length_le c.cache k v
  simp only [EventCache.size] at h
  simp only [EventCache.add, popIfOver, EventCache.size]
  split_ifs with hgt
  · simp only [List.length_drop]
    omega
  · simp only [gt_iff_lt, not_lt] at hgt
    simpa using hgt

theorem addAll_max_size (l : List (String × Doc)) :
    ∀ c : EventCache, (EventCache.addAll c l).max_size = c.max_size := by
  induction l with
  | nil => intro c; rfl
  | cons p tl ih =>
    intro c
    simp only [EventCache.addAll, List.foldl_cons] at *
    rw [ih (c.add p.1 p.2), add_max_size]

theorem addAll_size_le (l : List (String × Doc)) :
    ∀ c : EventCache, c.size ≤ c.max_size →
      (EventCache.addAll c l).size ≤ c.max_size := by
  induction l with
  | nil => intro c h; exact h
  | cons p tl ih =>
    intro c h
    have h1 : (c.add p.1 p.2).size ≤ (c.add p.1 p.2).max_size := by
      rw [add_max_size]
      exact add_size_le c p.1 p.2 h
    have h2 := ih (c.add p.1 p.2) h1
    rw [add_max_size] at h2
    simpa only [EventCache.addAll, List.foldl_cons] using h2

theorem addAll_eq_drop (C : Nat) (l : List (String × Doc)) :
    ∀ c : EventCache, c.max_size = C → c.cache.length ≤ C →
      (c.cache.map Prod.fst ++ l.map Prod.fst).Nodup →
      (EventCache.addAll c l).cache = (c.cache ++ l).drop (c.cache.length + l.length - C) := by
  induction l with
  | nil =>
    intro c hC hlen _
    have hz : c.cache.length + List.length ([] : List (String × Doc)) - C = 0 := by
      simp only [List.length_nil]
      omega
    simp only [EventCache.addAll, List.foldl_nil, List.append_nil, hz, List.drop_zero]
  | cons kv tl ih =>
    intro c hC hlen hnd
    obtain ⟨k, v⟩ := kv
    have hnd' : ((c.cache.map Prod.fst ++ [k]) ++ tl.map Prod.fst).Nodup := by
      have h1 : c.cache.map Prod.fst ++ List.map Prod.fst ((k, v) :: tl)
          = (c.cache.map Prod.fst ++ [k]) ++ tl.map Prod.fst := by
        simp
      exact h1 ▸ hnd
    have hsplit := List.nodup_append.mp hnd
    have hkc : k ∉ c.cache.map Prod.fst := by
      intro hk
      exact hsplit.2.2 hk (by simp)
    have hany : c.cache.any (fun p => p.1 = k) = false := by
      rw [Bool.eq_false_iff]
      intro hA
      obtain ⟨p, hp, hpe⟩ := List.any_eq_true.mp hA
      exact hkc (List.mem_map.mpr ⟨p, hp, by simpa using hpe⟩)
    have hins : insertOD c.cache k v = c.cache ++ [(k, v)] := by
      simp [insertOD, hany]
    have hstep : EventCache.addAll c ((k, v) :: tl)
        = EventCache.addAll (c.add k v) tl := by
      simp [EventCache.addAll, List.foldl_cons]
    have hA : (c.cache ++ [(k, v)]).map Prod.fst = c.cache.map Prod.fst ++ [k] := by
      simp
    by_cases hover : c.cache.length + 1 > C
    · have hcl : c.cache.length = C := by omega
      have hcond : (c.cache ++ [(k, v)]).length > c.max_size := by
        simp only [List.length_append, List.length_cons, List.length_nil, hC]
        omega
      have hadd : c.add k v = { c with cache := (c.cache ++ [(k, v)]).drop 1 } := by
        simp only [EventCache.add, popIfOver, hins]
        rw [if_pos hcond]
      have hlen' : ((c.cache ++ [(k, v)]).drop 1).length ≤ C := by
        simp only [List.length_drop, List.length_append, List.length_cons, List.length_nil]
        omega
      have hnd2 : (((c.cache ++ [(k, v)]).drop 1).map Prod.fst ++ tl.map Prod.fst).Nodup := by
        have sub : (((c.cache ++ [(k, v)]).drop 1).map Prod.fst).Sublist
            (c.cache.map Prod.fst ++ [k]) := by
          rw [List.map_drop, hA]
          exact List.drop_sublist 1 _
        exact List.Nodup.sublist (List.Sublist.append_right sub _) hnd'
      have hrec := ih (c.add k v) (by rw [add_max_size]; exact hC)
        (by rw [hadd]; exact hlen') (by rw [hadd]; exact hnd2)
      have hD : ((c.cache ++ [(k, v)]) ++ tl).drop 1
          = ((c.cache ++ [(k, v)]).drop 1) ++ tl :=
        List.drop_append_of_le_length (by simp)
      have hidx : ((c.cache ++ [(k, v)]).drop 1).length + tl.length - C = tl.length := by
        simp only [List.length_drop, List.length_append, List.length_cons, List.length_nil]
        omega
      have hidx2 : 1 + tl.length = c.cache.length + ((k, v) :: tl).length - C := by
        simp only [List.length_cons]
        omega
      calc (EventCache.addAll c ((k, v) :: tl)).cache
          = (EventCache.addAll (c.add k v) tl).cache := by rw [hstep]
        _ = ((c.add k v).cache ++ tl).drop ((c.add k v).cache.length + tl.length - C) := hrec
        _ = (((c.cache ++ [(k, v)]).drop 1) ++ tl).drop
              (((c.cache ++ [(k, v)]).drop 1).length + tl.length - C) := by rw [hadd]
        _ = (((c.cache ++ [(k, v)]) ++ tl).drop 1).drop tl.length := by rw [hidx, hD]
        _ = ((c.cache ++ [(k, v)]) ++ tl).drop (1 + tl.length) := List.drop_drop _ _ _
        _ = (c.cache ++ (k, v) :: tl).drop (c.cache.length + ((k, v) :: tl).length - C) := by
              rw [← List.append_cons, hidx2]
    · have hcond : ¬ ((c.cache ++ [(k, v)]).length > c.max_size) := by
        simp only [List.length_append, List.length_cons, List.length_nil, hC]
        omega
      have hadd : c.add k v = { c with cache := c.cache ++ [(k, v)] } := by
        simp only [EventCache.add, popIfOver, hins]
        rw [if_neg hcond]
      have hlen' : (c.cache ++ [(k, v)]).length ≤ C := by
        simp only [List.length_append, List.length_cons, List.length_nil]
        omega
      have hnd2 : ((c.cache ++ [(k, v)]).map Prod.fst ++ tl.map Prod.fst).Nodup := by
        rw [hA]
        exact hnd'
      have hrec := ih (c.add k v) (by rw [add_max_size]; exact hC)
        (by rw [hadd]; exact hlen') (by rw [hadd]; exact hnd2)
      have hidx : (c.cache ++ [(k, v)]).length + tl.length - C
          = c.cache.length + ((k, v) :: tl).length - C := by
        simp only [List.length_append, List.length_cons, List.length_nil]
        omega
      calc (EventCache.addAll c ((k, v) :: tl)).cache
          = (EventCache.addAll (c.add k v) tl).cache := by rw [hstep]
        _ = ((c.add k v).cache ++ tl).drop ((c.add k v).cache.length + tl.length - C) := hrec
        _ = ((c.cache ++ [(k, v)]) ++ tl).drop ((c.cache ++ [(k, v)]).length + tl.length - C) := by
              rw [hadd]
        _ = (c.cache ++ (k, v) :: tl).drop (c.cache.length + ((k, v) :: tl).length - C) := by
              rw [← List.append_cons, hidx]

/-- C3: for a capacity `C` and a sequence of more than `C` insertions
with distinct ids into a fresh cache, the size after every add stays at
most `C`, the surviving entries are exactly the `C` most recently
inserted pairs (in insertion order), and when a fresh id is added to a
full cache the oldest entry is the one evicted. -/
theorem C3_cache_fifo (C : Nat) (l : List (String × Doc))
    (hnd : (l.map Prod.fst).Nodup) (hlen : C < l.length) :
    (∀ i : Nat, (EventCache.addAll (EventCache.init C) (l.take i)).size ≤ C) ∧
    (EventCache.addAll (EventCache.init C) l).cache = l.drop (l.length - C) ∧
    (EventCache.addAll (EventCache.init C) l).size = C ∧
    (∀ (c : EventCache) (k : String) (v : Doc), c.max_size = C →
      c.contains k = false → c.size = C →
      (c.add k v).cache = (c.cache ++ [(k, v)]).drop 1) := by
  have hmain : (EventCache.addAll (EventCache.init C) l).cache = l.drop (l.length - C) := by
    have h := addAll_eq_drop C l (EventCache.init C) rfl (by simp [EventCache.init])
      (by simpa [EventCache.init] using hnd)
    simpa [EventCache.init] using h
  refine ⟨?_, hmain, ?_, ?_⟩
  · intro i
    have h := addAll_size_le (l.take i) (EventCache.init C) (by simp [EventCache.init, EventCache.size])
    simpa [EventCache.init] using h
  · rw [EventCache.size, hmain]
    simp only [List.length_drop]
    omega
  · intro c k v hmax hcont hsz
    have hany : c.cache.any (fun p => p.1 = k) = false := hcont
    have hins : insertOD c.cache k v = c.cache ++ [(k, v)] := by
      simp [insertOD, hany]
    have hcond : (c.cache ++ [(k, v)]).length > c.max_size := by
      simp only [List.length_append, List.length_cons, List.length_nil, hmax]
      have : c.cache.length = C := hsz
      omega
    simp only [EventCache.add, popIfOver, hins]
    rw [if_pos hcond]

/-- Witness for C3 at capacity 1 and a three-element insertion sequence
with distinct ids. -/
theorem C3_cache_fifo_witness :
    (∀ i : Nat, (EventCache.addAll (EventCache.init 1)
      ([("a", docA), ("b", docB), ("c", docC)].take i)).size ≤ 1) ∧
    (EventCache.addAll (EventCache.init 1) [("a", docA), ("b", docB), ("c", docC)]).cache
      = [("a", docA), ("b", docB), ("c", docC)].drop (3 - 1) ∧
    (EventCache.addAll (EventCache.init 1) [("a", docA), ("b", docB), ("c", docC)]).size = 1 ∧
    (∀ (c : EventCache) (k : String) (v : Doc), c.max_size = 1 →
      c.contains k = false → c.size = 1 →
      (c.add k v).cache = (c.cache ++ [(k, v)]).drop 1) :=
  C3_cache_fifo 1 [("a", docA), ("b", docB), ("c", docC)] (by decide) (by decide)

theorem find_replace_self (l : List (String × Doc)) (k : String) (v : Doc)
    (h : l.any (fun p => p.1 = k) = true) :
    (l.map (fun p => if p.1 = k then (k, v) else p)).find? (fun p => p.1 = k)
      = some (k, v) := by
  induction l with
  | nil => simp at h
  | cons p tl ih =>
    by_cases hp : p.1 = k
    · simp [hp]
    · have h' : tl.any (fun p => p.1 = k) = true := by
        simp only [List.any_cons] at h
        simpa [hp] using h
      simp [hp, ih h']

/-- C10: adding a record under an id already present in the cache
overwrites the stored record in place — the entry keeps its position in
the eviction order, the key sequence is unchanged, nothing is evicted,
the size is unchanged, and a subsequent `get` returns the new record.
(The hypothesis `size ≤ max_size` holds for every cache reachable
through `add`, by `addAll_size_le`.) -/
theorem C10_overwrite_in_place (c : EventCache) (k : String) (v : Doc)
    (hmem : c.contains k = true) (hsz : c.size ≤ c.max_size) :
    (c.add k v).cache = c.cache.map (fun p => if p.1 = k then (k, v) else p) ∧
    (c.add k v).size = c.size ∧
    (c.add k v).cache.map Prod.fst = c.cache.map Prod.fst ∧
    (c.add k v).get k = some v := by
  have hany : c.cache.any (fun p => p.1 = k) = true := hmem
  have hins : insertOD c.cache k v
      = c.cache.map (fun p => if p.1 = k then (k, v) else p) := by
    simp [insertOD, hany]
  have hcond : ¬ ((c.cache.map (fun p => if p.1 = k then (k, v) else p)).length
      > c.max_size) := by
    simp only [List.length_map, gt_iff_lt, not_lt]
    exact hsz
  have hcache : (c.add k v).cache
      = c.cache.map (fun p => if p.1 = k then (k, v) else p) := by
    simp only [EventCache.add, popIfOver, hins]
    rw [if_neg hcond]
  have hkeys : (c.add k v).cache.map Prod.fst = c.cache.map Prod.fst := by
    rw [hcache, List.map_map]
    apply List.map_congr_left
    intro p _
    by_cases hp : p.1 = k
    · simp [hp]
    · simp [hp]
  refine ⟨hcache, ?_, hkeys, ?_⟩
  · simp only [EventCache.size, hcache, List.length_map]
  · simp only [EventCache.get, hcache]
    rw [find_replace_self c.cache k v hany]
    rfl

/-- Witness for C10 on a two-entry cache whose oldest id is
overwritten. -/
theorem C10_overwrite_in_place_witness :
    (EventCache.add ⟨2, [("a", docA), ("b", docB)]⟩ "a" docC).cache
      = [("a", docA), ("b", docB)].map (fun p => if p.1 = "a" then ("a", docC) else p) ∧
    (EventCache.add ⟨2, [("a", docA), ("b", docB)]⟩ "a" docC).size
      = EventCache.size ⟨2, [("a", docA), ("b", docB)]⟩ ∧
    (EventCache.add ⟨2, [("a", docA), ("b", docB)]⟩ "a" docC).cache.map Prod.fst
      = [("a", docA), ("b", docB)].map Prod.fst ∧
    (EventCache.add ⟨2, [("a", docA), ("b", docB)]⟩ "a" docC).get "a" = some docC :=
  C10_overwrite_in_place ⟨2, [("a", docA), ("b", docB)]⟩ "a" docC (by decide) (by decide)

theorem validId_none (e : RawEvent) (h : hasValidId e = false) : validId e = none := by
  unfold hasValidId at h
  unfold validId
  cases he : e.event_id with
  | none => rfl
  | some s =>
    rw [he] at h
    have h2 : s.isEmpty = true := by simpa using h
    simp [h2]

theorem validId_some (e : RawEvent) (h : hasValidId e = true) :
    ∃ k, validId e = some k := by
  unfold hasValidId at h
  unfold validId
  cases he : e.event_id with
  | none => rw [he] at h; simp at h
  | some s =>
    rw [he] at h
    simp only [Bool.not_eq_true'] at h
    exact ⟨s, by simp [h]⟩

theorem serializeChecked_invalid (e : RawEvent) (h : hasValidId e = false) :
    serializeChecked e = Except.error MalformedEventError.malformed := by
  unfold serializeChecked
  rw [validId_none e h]

theorem serializeChecked_valid (e : RawEvent) (h : hasValidId e = true) :
    ∃ k, serializeChecked e = Except.ok (k, _serialize_event e) := by
  obtain ⟨k, hk⟩ := validId_some e h
  exact ⟨k, by unfold serializeChecked; rw [hk]⟩

theorem serializeBatch_filter (l : List RawEvent) :
    serializeBatch (l.filter hasValidId) = serializeBatch l := by
  unfold serializeBatch
  induction l with
  | nil => rfl
  | cons e tl ih =>
    by_cases h : hasValidId e = true
    · obtain ⟨k, hk⟩ := serializeChecked_valid e h
      have hopt : (serializeChecked e).toOption = some (k, _serialize_event e) := by
        rw [hk]; rfl
      rw [List.filter_cons_of_pos h]
      simp only [List.filterMap_cons, hopt]
      rw [ih]
    · have hf : hasValidId e = false := by simpa using h
      have hopt : (serializeChecked e).toOption = none := by
        rw [serializeChecked_invalid e hf]; rfl
      rw [List.filter_cons_of_neg (by simp [hf])]
      simp only [List.filterMap_cons, hopt]
      exact ih

theorem process_events_congr (st : Store) (c : EventCache) (l₁ l₂ : List RawEvent)
    (ok : Bool) (h : serializeBatch l₁ = serializeBatch l₂) :
    process_events st c l₁ ok = process_events st c l₂ ok := by
  unfold process_events
  rw [h]

theorem backfill_doc_none (rid : String) (e : RawEvent) (h : hasValidId e = false) :
    backfill_doc rid e = none := by
  unfold backfill_doc
  rw [validId_none e h]

theorem backfill_filterMap_filter (rid : String) (chunk : List RawEvent) :
    (chunk.filter hasValidId).filterMap (backfill_doc rid)
      = chunk.filterMap (backfill_doc rid) := by
  induction chunk with
  | nil => rfl
  | cons e tl ih =>
    by_cases h : hasValidId e = true
    · obtain ⟨k, hk⟩ := validId_some e h
      have hsome : backfill_doc rid e
          = some (k,
            { event_id := e.event_id
              room_id := some rid
              sender := e.sender
              type' := e.type'
              origin_server_ts := e.origin_server_ts
              timestamp := e.timestamp.getD 0
              source := e.source
              content :=
                match e.content with
                | RawContent.dict d => DocContent.dict d
                | RawContent.nonDict r => DocContent.nonDict r
                | RawContent.absent => DocContent.dict []
              backfilled := some true }) := by
        unfold backfill_doc
        rw [hk]
      rw [List.filter_cons_of_pos h, List.filterMap_cons_some hsome,
        List.filterMap_cons_some hsome, ih]
    · have hf : hasValidId e = false := by simpa using h
      rw [List.filter_cons_of_neg (by simp [hf]),
        List.filterMap_cons_none (backfill_doc_none rid e hf), ih]

/-- C5: an event without a usable identifier is rejected at the
serializer boundary (the id guard), produces no document on either
ingestion path, contributes nothing to the store or the cache, and the
rest of the batch is processed exactly as if the event were absent. -/
theorem C5_missing_id_rejected (e : RawEvent) (h : hasValidId e = false) :
    serializeChecked e = Except.error MalformedEventError.malformed ∧
    (∀ rid : String, backfill_doc rid e = none) ∧
    (∀ (st : Store) (c : EventCache) (events : List RawEvent) (ok : Bool),
      process_events st c events ok = process_events st c (events.filter hasValidId) ok) ∧
    (∀ (st : Store) (events : List RawEvent),
      store_events st events = store_events st (events.filter hasValidId)) ∧
    (∀ (rid : String) (chunk : List RawEvent),
      chunk.filterMap (backfill_doc rid)
        = (chunk.filter hasValidId).filterMap (backfill_doc rid)) := by
  refine ⟨serializeChecked_invalid e h, fun rid => backfill_doc_none rid e h, ?_, ?_, ?_⟩
  · intro st c events ok
    exact process_events_congr st c events (events.filter hasValidId) ok
      (serializeBatch_filter events).symm
  · intro st events
    unfold store_events
    rw [serializeBatch_filter events]
  · intro rid chunk
    exact (backfill_filterMap_filter rid chunk).symm

/-- Witness for C5 at a concrete event whose `event_id` attribute is
missing, inside a batch that also carries a well-formed event. -/
theorem C5_missing_id_rejected_witness :
    serializeChecked evNoId = Except.error MalformedEventError.malformed ∧
    (∀ rid : String, backfill_doc rid evNoId = none) ∧
    (∀ (st : Store) (c : EventCache) (events : List RawEvent) (ok : Bool),
      process_events st c events ok = process_events st c (events.filter hasValidId) ok) ∧
    (∀ (st : Store) (events : List RawEvent),
      store_events st events = store_events st (events.filter hasValidId)) ∧
    (∀ (rid : String) (chunk : List RawEvent),
      chunk.filterMap (backfill_doc rid)
        = (chunk.filter hasValidId).filterMap (backfill_doc rid)) :=
  C5_missing_id_rejected evNoId (by decide)

/-- C9 counterexample: the serializer gives missing `sender` / `type` the
Python default `None` (modelled `none`), not the empty string the claim
asserts; the record is nonetheless produced. -/
theorem C9_counterexample :
    hasValidId evA = true ∧
    (_serialize_event evA).sender = none ∧ (_serialize_event evA).sender ≠ some "" ∧
    (_serialize_event evA).type' = none ∧ (_serialize_event evA).type' ≠ some "" := by
  decide

/-- C9 amended: for every event with a usable identifier a record is
always produced on both paths, and missing optional fields default to
`None` (`none`) for `sender`/`type` and `0` for `timestamp`. -/
theorem C9_optional_defaults (e : RawEvent) (h : hasValidId e = true) :
    (∃ k, serializeChecked e = Except.ok (k, _serialize_event e)) ∧
    (e.sender = none → (_serialize_event e).sender = none) ∧
    (e.type' = none → (_serialize_event e).type' = none) ∧
    (e.timestamp = none → (_serialize_event e).timestamp = 0) ∧
    (∀ rid : String,
      ((backfill_doc rid e).map (fun p => p.2.sender) = some e.sender) ∧
      ((backfill_doc rid e).map (fun p => p.2.type') = some e.type') ∧
      ((backfill_doc rid e).map (fun p => p.2.timestamp)
        = some (e.timestamp.getD 0))) := by
  obtain ⟨k, hk⟩ := validId_some e h
  refine ⟨serializeChecked_valid e h, ?_, ?_, ?_, ?_⟩
  · intro hs
    show e.sender = none
    exact hs
  · intro ht
    show e.type' = none
    exact ht
  · intro ht
    show e.timestamp.getD 0 = 0
    rw [ht]
    rfl
  · intro rid
    unfold backfill_doc
    rw [hk]
    exact ⟨rfl, rfl, rfl⟩

/-- Witness for C9 (amended) at a concrete event with identifier `e1`
and no sender, type or timestamp. -/
theorem C9_optional_defaults_witness :
    (∃ k, serializeChecked evA = Except.ok (k, _serialize_event evA)) ∧
    (evA.sender = none → (_serialize_event evA).sender = none) ∧
    (evA.type' = none → (_serialize_event evA).type' = none) ∧
    (evA.timestamp = none → (_serialize_event evA).timestamp = 0) ∧
    (∀ rid : String,
      ((backfill_doc rid evA).map (fun p => p.2.sender) = some evA.sender) ∧
      ((backfill_doc rid evA).map (fun p => p.2.type') = some evA.type') ∧
      ((backfill_doc rid evA).map (fun p => p.2.timestamp)
        = some (evA.timestamp.getD 0))) :=
  C9_optional_defaults evA (by decide)

/-- C1 (code divergence): in every successful cycle `sync_loop` persists
the advanced cursor *first* — the trace starts with the `_save_state`
call, before any store write; concretely, a cycle whose storage fails
still leaves the persisted cursor at the new token with the store
empty. -/
theorem C1_cursor_saved_before_store :
    (∀ (st : SyncState) (next : String) (rooms : List (String × List RawEvent))
        (storeOk : String → Bool),
      ((sync_cycle st (SyncResult.success next rooms) storeOk).2).head?
          = some (Action.saveState (some next)) ∧
      (sync_cycle st (SyncResult.success next rooms) storeOk).1.sync_token = some next) ∧
    (sync_cycle { sync_token := some "T0", store := [], cache := EventCache.init 2 }
        (SyncResult.success "T1" [("!r:hs", [evA])]) (fun _ => false)
      = ({ sync_token := some "T1", store := [],
           cache := { max_size := 2, cache := [("e1", _serialize_event evA)] } },
         [Action.saveState (some "T1"), Action.cacheAdd "e1"])) := by
  refine ⟨?_, by decide⟩
  intro st next rooms storeOk
  exact ⟨rfl, rfl⟩

/-- C4 (code divergence): a cycle whose storage write fails does not
back off and has already advanced and persisted the cursor past the
failed batch; only a failed or raising `sync` call leaves the cursor
unchanged and sleeps 5 seconds. -/
theorem C4_storage_failure_advances_cursor :
    (sync_cycle { sync_token := some "T0", store := [], cache := EventCache.init 2 }
        (SyncResult.success "T1" [("!r:hs", [evA])]) (fun _ => false)).1.sync_token
      = some "T1" ∧
    (sync_cycle { sync_token := some "T0", store := [], cache := EventCache.init 2 }
        (SyncResult.success "T1" [("!r:hs", [evA])]) (fun _ => false)).1.store = [] ∧
    Action.sleepBackoff 5 ∉
      (sync_cycle { sync_token := some "T0", store := [], cache := EventCache.init 2 }
        (SyncResult.success "T1" [("!r:hs", [evA])]) (fun _ => false)).2 ∧
    Action.saveState (some "T1") ∈
      (sync_cycle { sync_token := some "T0", store := [], cache := EventCache.init 2 }
        (SyncResult.success "T1" [("!r:hs", [evA])]) (fun _ => false)).2 ∧
    (∀ (st : SyncState) (storeOk : String → Bool),
      sync_cycle st SyncResult.exn storeOk = (st, [Action.sleepBackoff 5]) ∧
      sync_cycle st SyncResult.failure storeOk = (st, [Action.sleepBackoff 5])) := by
  refine ⟨by decide, by decide, by decide, by decide, ?_⟩
  intro st storeOk
  exact ⟨rfl, rfl⟩

/-- C6 (code divergence): `_save_state` performs a single in-place
`write_text` on the state file — no temporary file, no rename — so a
crash mid-write can leave the file with contents (for instance the empty
string) that are neither the complete old nor the complete new state. -/
theorem C6_state_write_in_place :
    (∀ (dir file : String) (tok : Option String),
      save_state_ops dir file tok
        = [FsOp.mkdirParents dir, FsOp.writeFile file (encodeState tok)] ∧
      (∀ src dst : String, FsOp.renameFile src dst ∉ save_state_ops dir file tok)) ∧
    ("" ∈ crashOutcomes (encodeState (some "T0")) (encodeState (some "T1")) ∧
      "" ≠ encodeState (some "T0") ∧ "" ≠ encodeState (some "T1")) := by
  constructor
  · intro dir file tok
    refine ⟨rfl, ?_⟩
    intro src dst hmem
    simp only [save_state_ops, List.mem_cons, List.not_mem_nil, or_false] at hmem
    rcases hmem with h | h <;> exact FsOp.noConfusion h
  · decide

theorem numBatches_pos (limit bs : Nat) (hl : 0 < limit) (hb : 0 < bs) :
    ∃ n, numBatches limit bs = n + 1 := by
  unfold numBatches
  have h1 : 1 ≤ (limit + bs - 1) / bs := by
    rw [Nat.le_div_iff_mul_le hb]
    omega
  exact ⟨(limit + bs - 1) / bs - 1, by omega⟩

theorem backfill_loop_ok (fetch : Nat → Option PaginationResp) (storeOk : Nat → Bool)
    (rid : String) (hfetch : ∀ i, (fetch i).isSome = true) :
    ∀ (fuel : Nat) (tok : Option String) (cnt idx : Nat) (st : Store),
      ∃ r, backfill_loop fetch storeOk rid fuel tok cnt idx st = Except.ok r := by
  intro fuel
  induction fuel with
  | zero => intro tok cnt idx st; exact ⟨(cnt, st), rfl⟩
  | succ n ih =>
    intro tok cnt idx st
    unfold backfill_loop
    by_cases ht : tokenTruthy tok
    · cases hf : fetch idx with
      | none =>
        have := hfetch idx
        rw [hf] at this
        simp at this
      | some resp =>
        by_cases hc : resp.chunk.isEmpty
        · exact ⟨(cnt, st), by simp [ht, hf, hc]⟩
        · cases hs : resp.start with
          | none =>
            refine ⟨(if (resp.chunk.filterMap (backfill_doc rid)).isEmpty then (cnt, st)
               else if storeOk idx then
                (cnt + (resp.chunk.filterMap (backfill_doc rid)).length,
                  (resp.chunk.filterMap (backfill_doc rid)).foldl upsert st)
               else (cnt, st)), ?_⟩
            simp only [ht, if_true, hf, hc, Bool.false_eq_true, if_false, hs]
          | some t' =>
            obtain ⟨r, hr⟩ := ih t'
              (if (resp.chunk.filterMap (backfill_doc rid)).isEmpty then (cnt, st)
               else if storeOk idx then
                (cnt + (resp.chunk.filterMap (backfill_doc rid)).length,
                  (resp.chunk.filterMap (backfill_doc rid)).foldl upsert st)
               else (cnt, st)).1
              (idx + 1)
              (if (resp.chunk.filterMap (backfill_doc rid)).isEmpty then (cnt, st)
               else if storeOk idx then
                (cnt + (resp.chunk.filterMap (backfill_doc rid)).length,
                  (resp.chunk.filterMap (backfill_doc rid)).foldl upsert st)
               else (cnt, st)).2
            refine ⟨r, ?_⟩
            simp only [ht, if_true, hf, hc, Bool.false_eq_true, if_false, hs]
            exact hr
    · have ht' : tokenTruthy tok = false := by simpa using ht
      exact ⟨(cnt, st), by simp [ht']⟩

/-- C7: the backfill walk for a room ends as a normal return — when the
first pagination response has an empty chunk the walk reports 0 events
and leaves the store untouched, and as long as no `room_messages` call
raises, the walk never takes the exception path. -/
theorem C7_backfill_empty_history (fetch : Nat → Option PaginationResp)
    (storeOk : Nat → Bool) (room_id : String) (limit bs : Nat) (store : Store)
    (pb : Option String) (resp : PaginationResp)
    (hl : 0 < limit) (hb : 0 < bs)
    (hfetch : fetch 0 = some resp) (hchunk : resp.chunk = []) :
    backfill_room (some pb) fetch storeOk room_id limit bs store = (0, store) ∧
    (∀ (f : Nat → Option PaginationResp) (so : Nat → Bool) (rid : String)
        (fuel cnt idx : Nat) (tok : Option String) (st : Store),
      (∀ i, (f i).isSome = true) →
      ∃ r, backfill_loop f so rid fuel tok cnt idx st = Except.ok r) := by
  constructor
  · obtain ⟨n, hn⟩ := numBatches_pos limit bs hl hb
    have hbs : ¬ (bs = 0) := by omega
    have hloop : backfill_loop fetch storeOk room_id (numBatches limit bs) pb 0 0 store
        = Except.ok (0, store) := by
      rw [hn]
      unfold backfill_loop
      by_cases ht : tokenTruthy pb
      · simp [ht, hfetch, hchunk]
      · have ht' : tokenTruthy pb = false := by simpa using ht
        simp [ht']
    simp [backfill_room, hbs, hloop]
  · exact fun f so rid fuel cnt idx tok st hf =>
      backfill_loop_ok f so rid hf fuel tok cnt idx st

/-- Witness for C7: a known room whose first pagination response is
empty, over a non-empty store. -/
theorem C7_backfill_empty_history_witness :
    backfill_room (some (some "t0")) (fun _ => some { chunk := [], start := none })
        (fun _ => true) "!r:hs" 1000 100 [("a", docA)] = (0, [("a", docA)]) ∧
    (∀ (f : Nat → Option PaginationResp) (so : Nat → Bool) (rid : String)
        (fuel cnt idx : Nat) (tok : Option String) (st : Store),
      (∀ i, (f i).isSome = true) →
      ∃ r, backfill_loop f so rid fuel tok cnt idx st = Except.ok r) :=
  C7_backfill_empty_history (fun _ => some { chunk := [], start := none })
    (fun _ => true) "!r:hs" 1000 100 [("a", docA)] (some "t0")
    { chunk := [], start := none } (by decide) (by decide) rfl rfl

theorem backfill_loop_count_indep (fetch : Nat → Option PaginationResp)
    (storeOk : Nat → Bool) (rid : String) :
    ∀ (fuel : Nat) (tok : Option String) (cnt idx : Nat) (st st' : Store),
      countOf (backfill_loop fetch storeOk rid fuel tok cnt idx st)
        = countOf (backfill_loop fetch storeOk rid fuel tok cnt idx st') := by
  intro fuel
  induction fuel with
  | zero => intros; rfl
  | succ n ih =>
    intro tok cnt idx st st'
    unfold backfill_loop
    by_cases ht : tokenTruthy tok
    · cases hf : fetch idx with
      | none => simp [ht, hf, countOf]
      | some resp =>
        by_cases hc : resp.chunk.isEmpty
        · simp [ht, hf, hc, countOf]
        · cases hs : resp.start with
          | none =>
            simp only [ht, if_true, hf, hc, Bool.false_eq_true, if_false, hs]
            split_ifs <;> rfl
          | some t' =>
            simp only [ht, if_true, hf, hc, Bool.false_eq_true, if_false, hs]
            split_ifs with h1 h2
            · exact ih t' cnt (idx + 1) st st'
            · exact ih t' (cnt + (resp.chunk.filterMap (backfill_doc rid)).length)
                (idx + 1) _ _
            · exact ih t' cnt (idx + 1) st st'
    · have ht' : tokenTruthy tok = false := by simpa using ht
      simp [ht', countOf]

theorem backfill_room_count_indep (pb : Option String)
    (fetch : Nat → Option PaginationResp) (storeOk : Nat → Bool) (rid : String)
    (limit bs : Nat) (st st' : Store) :
    (backfill_room (some pb) fetch storeOk rid limit bs st).1
      = (backfill_room (some pb) fetch storeOk rid limit bs st').1 := by
  by_cases hbs : bs = 0
  · simp [backfill_room, hbs]
  · have hcnt := backfill_loop_count_indep fetch storeOk rid
      (numBatches limit bs) pb 0 0 st st'
    cases h1 : backfill_loop fetch storeOk rid (numBatches limit bs) pb 0 0 st with
    | ok r =>
      cases h2 : backfill_loop fetch storeOk rid (numBatches limit bs) pb 0 0 st' with
      | ok r' =>
        rw [h1, h2] at hcnt
        simp only [countOf] at hcnt
        simp [backfill_room, hbs, h1, h2, hcnt]
      | error s' =>
        rw [h1, h2] at hcnt
        simp only [countOf] at hcnt
        simp [backfill_room, hbs, h1, h2, hcnt]
    | error sE =>
      cases h2 : backfill_loop fetch storeOk rid (numBatches limit bs) pb 0 0 st' with
      | ok r' =>
        rw [h1, h2] at hcnt
        simp only [countOf] at hcnt
        simp [backfill_room, hbs, h1, h2, ← hcnt]
      | error s' =>
        simp [backfill_room, hbs, h1, h2]

theorem backfill_room_fail_first (pb : Option String)
    (fetch : Nat → Option PaginationResp) (storeOk : Nat → Bool) (rid : String)
    (limit bs : Nat) (st : Store) (hf : fetch 0 = none) :
    (backfill_room (some pb) fetch storeOk rid limit bs st).1 = 0 := by
  by_cases hbs : bs = 0
  · simp [backfill_room, hbs]
  · cases hfuel : numBatches limit bs with
    | zero => simp [backfill_room, hbs, hfuel, backfill_loop]
    | succ n =>
      by_cases ht : tokenTruthy pb
      · have hloop : backfill_loop fetch storeOk rid (n + 1) pb 0 0 st
            = Except.error st := by
          unfold backfill_loop
          simp [ht, hf]
        simp [backfill_room, hbs, hfuel, hloop]
      · have ht' : tokenTruthy pb = false := by simpa using ht
        have hloop : backfill_loop fetch storeOk rid (n + 1) pb 0 0 st
            = Except.ok (0, st) := by
          unfold backfill_loop
          simp [ht']
        simp [backfill_room, hbs, hfuel, hloop]

theorem backfill_all_rooms_results (fetchFor : String → Nat → Option PaginationResp)
    (storeOkFor : String → Nat → Bool) (limit bs : Nat) :
    ∀ (rooms : List (String × Option String)) (acc : List (String × Nat)) (store : Store),
      (List.foldl (backfill_all_step fetchFor storeOkFor limit bs) (acc, store) rooms).1
        = acc ++ rooms.map (fun r => (r.1,
            (backfill_room (some r.2) (fetchFor r.1) (storeOkFor r.1) r.1 limit bs []).1)) := by
  intro rooms
  induction rooms with
  | nil => intro acc store; simp
  | cons r rooms ih =>
    intro acc store
    simp only [List.foldl_cons, backfill_all_step]
    rw [ih]
    rw [backfill_room_count_indep r.2 (fetchFor r.1) (storeOkFor r.1) r.1 limit bs store []]
    simp

/-- C8: `backfill_all_rooms` reports an entry for every joined room, in
order; each room's count is that of an independent `backfill_room` run
(one room's outcome cannot abort or alter the others), and a room whose
history fetch raises on the first call is reported with count 0. -/
theorem C8_backfill_room_isolation (rooms : List (String × Option String))
    (fetchFor : String → Nat → Option PaginationResp)
    (storeOkFor : String → Nat → Bool) (limit bs : Nat) (store : Store)
    (failRoom : String × Option String)
    (hmem : failRoom ∈ rooms) (hfail : fetchFor failRoom.1 0 = none) :
    ((backfill_all_rooms rooms fetchFor storeOkFor limit bs store).1.map Prod.fst
      = rooms.map Prod.fst) ∧
    ((backfill_all_rooms rooms fetchFor storeOkFor limit bs store).1
      = rooms.map (fun r => (r.1,
          (backfill_room (some r.2) (fetchFor r.1) (storeOkFor r.1) r.1 limit bs []).1))) ∧
    ((backfill_room (some failRoom.2) (fetchFor failRoom.1) (storeOkFor failRoom.1)
        failRoom.1 limit bs []).1 = 0) ∧
    ((failRoom.1, 0) ∈ (backfill_all_rooms rooms fetchFor storeOkFor limit bs store).1) := by
  have hres : (backfill_all_rooms rooms fetchFor storeOkFor limit bs store).1
      = rooms.map (fun r => (r.1,
          (backfill_room (some r.2) (fetchFor r.1) (storeOkFor r.1) r.1 limit bs []).1)) := by
    unfold backfill_all_rooms
    rw [backfill_all_rooms_results fetchFor storeOkFor limit bs rooms [] store]
    rfl
  have hzero : (backfill_room (some failRoom.2) (fetchFor failRoom.1)
      (storeOkFor failRoom.1) failRoom.1 limit bs []).1 = 0 :=
    backfill_room_fail_first failRoom.2 (fetchFor failRoom.1) (storeOkFor failRoom.1)
      failRoom.1 limit bs [] hfail
  refine ⟨?_, hres, hzero, ?_⟩
  · rw [hres]
    simp [List.map_map]
  · rw [hres]
    refine List.mem_map.mpr ⟨failRoom, hmem, ?_⟩
    rw [hzero]

/-- Witness for C8: two rooms, the first room's fetch raises, the second
returns one event; both are reported, as `A ↦ 0` and `B ↦ 1`. -/
theorem C8_backfill_room_isolation_witness :
    ((backfill_all_rooms [("A", some "pa"), ("B", some "pb")]
        (fun rid => if rid = "A" then (fun _ => none)
          else (fun _ => some { chunk := [evA], start := none }))
        (fun _ _ => true) 1000 100 []).1.map Prod.fst
      = [("A", some "pa"), ("B", some "pb")].map Prod.fst) ∧
    ((backfill_all_rooms [("A", some "pa"), ("B", some "pb")]
        (fun rid => if rid = "A" then (fun _ => none)
          else (fun _ => some { chunk := [evA], start := none }))
        (fun _ _ => true) 1000 100 []).1
      = [("A", some "pa"), ("B", some "pb")].map (fun r => (r.1,
          (backfill_room (some r.2)
            ((fun rid => if rid = "A" then (fun _ => none)
              else (fun _ => some { chunk := [evA], start := none })) r.1)
            ((fun _ _ => true) r.1) r.1 1000 100 []).1))) ∧
    ((backfill_room (some (some "pa"))
        ((fun rid => if rid = "A" then (fun _ => none)
          else (fun _ => some { chunk := [evA], start := none })) "A")
        ((fun _ _ => true) "A") "A" 1000 100 []).1 = 0) ∧
    (("A", 0) ∈ (backfill_all_rooms [("A", some "pa"), ("B", some "pb")]
        (fun rid => if rid = "A" then (fun _ => none)
          else (fun _ => some { chunk := [evA], start := none }))
        (fun _ _ => true) 1000 100 []).1) :=
  C8_backfill_room_isolation [("A", some "pa"), ("B", some "pb")]
    (fun rid => if rid = "A" then (fun _ => none)
      else (fun _ => some { chunk := [evA], start := none }))
    (fun _ _ => true) 1000 100 [] ("A", some "pa") (by decide) (by decide)

end MatrixIndexer
